import Mathlib

/-!
Shallow embedding of the reduced-tree fork-choice core (`src/lib.rs`).

Block identifiers (`Hash256`) are modelled as `Nat`; the all-zero default
hash is `0`.  `u64` slot arithmetic is modelled on `Nat`: the only
subtraction performed by the source (`block.slot - slot`) is guarded by
`slot < block.slot`, so `Nat` subtraction agrees with `u64` subtraction.

The source's loops (`get_ancestor_hash_at_slot`, the LCA walk, and the
`find_prev_in_tree` recursion) need not terminate on arbitrary stores, so
they are embedded with an explicit fuel parameter.  Results are
`Option (Option _)`: the outer `none` means the fuel ran out (the Rust
program would still be running), `some none` is the source's lookup miss
(`None`), and `some (some x)` is `Some(x)`.
-/

namespace ReducedTree

abbrev Hash := Nat

def SKIP_LIST_LEN : Nat := 16

/-- `u64::trailing_zeros`, fuelled by the 64-bit width (64 halvings always
reach an odd number or zero for a `u64` input). -/
def u64TrailingZerosAux : Nat → Nat → Nat
  | 0, _ => 64
  | fuel + 1, n => if n % 2 = 1 then 0 else u64TrailingZerosAux fuel (n / 2) + 1

def u64TrailingZeros (n : Nat) : Nat :=
  if n = 0 then 64 else u64TrailingZerosAux 64 n

/-- `u64::next_power_of_two`, fuelled by the 64-bit width (64 doublings of 1
exceed any `u64`). -/
def u64NextPowerOfTwoAux : Nat → Nat → Nat → Nat
  | 0, _, power => power
  | fuel + 1, n, power => if n ≤ power then power else u64NextPowerOfTwoAux fuel n (power * 2)

def u64NextPowerOfTwo (n : Nat) : Nat :=
  u64NextPowerOfTwoAux 64 n 1

/-- `u64::is_power_of_two`, fuelled by the 64-bit width. -/
def u64IsPowerOfTwoAux : Nat → Nat → Bool
  | 0, _ => false
  | fuel + 1, n =>
    if n = 0 then false
    else if n = 1 then true
    else if n % 2 = 1 then false
    else u64IsPowerOfTwoAux fuel (n / 2)

def u64IsPowerOfTwo (n : Nat) : Bool :=
  u64IsPowerOfTwoAux 64 n

/-- `Block`: slot number plus the skip-pointer array.  The source uses a
fixed array `[Hash256; SKIP_LIST_LEN]`; every index the core reads is below
16 (15, `trailing_zeros` of a power of two at most 16, or
`next_power_of_two(delta) - 1` for `delta ≤ 16`), so a total index function
is an exact model of the reads that occur. -/
structure Block where
  slot : Nat
  ancestor_skip_list : Nat → Hash

/-- `Store = HashMap<Hash256, Block>`, modelled as a partial map. -/
abbrev Store := Hash → Option Block

/-- The loop body of `get_ancestor_hash_at_slot` (src/lib.rs lines 154-169),
one fuel unit per iteration. -/
def getAncestorLoop (store : Store) (slot : Nat) : Nat → Block → Option (Option Hash)
  | 0, _ => none
  | fuel + 1, block =>
    if slot ≥ block.slot then
      some none
    else
      let delta := block.slot - slot
      if delta > SKIP_LIST_LEN then
        match store (block.ancestor_skip_list (SKIP_LIST_LEN - 1)) with
        | none => some none
        | some b => getAncestorLoop store slot fuel b
      else if u64IsPowerOfTwo delta then
        some (some (block.ancestor_skip_list (u64TrailingZeros delta)))
      else
        match store (block.ancestor_skip_list (u64NextPowerOfTwo delta - 1)) with
        | none => some none
        | some b => getAncestorLoop store slot fuel b

/-- `get_ancestor_hash_at_slot` (src/lib.rs lines 151-170). -/
def get_ancestor_hash_at_slot (fuel : Nat) (slot : Nat) (start : Hash) (store : Store) :
    Option (Option Hash) :=
  match store start with
  | none => some none
  | some block => getAncestorLoop store slot fuel block

/-- The loop of `find_least_common_ancestor` (src/lib.rs lines 182-191),
one fuel unit per iteration. -/
def lcaLoop (store : Store) : Nat → Block → Block → Option (Option Hash)
  | 0, _, _ => none
  | fuel + 1, a, b =>
    if a.ancestor_skip_list 0 = b.ancestor_skip_list 0 then
      some (some (a.ancestor_skip_list 0))
    else if a.slot = 0 ∨ b.slot = 0 then
      some none
    else
      match store (a.ancestor_skip_list 0), store (b.ancestor_skip_list 0) with
      | some a2, some b2 => lcaLoop store fuel a2 b2
      | _, _ => some none

/-- `find_least_common_ancestor` (src/lib.rs lines 172-192). -/
def find_least_common_ancestor (fuel : Nat) (a_root b_root : Hash) (store : Store) :
    Option (Option Hash) :=
  match store a_root, store b_root with
  | some a, some b =>
    if a.slot > b.slot then
      match get_ancestor_hash_at_slot fuel b.slot a_root store with
      | none => none
      | some none => some none
      | some (some h) =>
        match store h with
        | none => some none
        | some a2 => lcaLoop store fuel a2 b
    else if b.slot > a.slot then
      match get_ancestor_hash_at_slot fuel a.slot b_root store with
      | none => none
      | some none => some none
      | some (some h) =>
        match store h with
        | none => some none
        | some b2 => lcaLoop store fuel a b2
    else
      lcaLoop store fuel a b
  | _, _ => some none

/-- `SortedList<K>` is `BTreeMap<K, ()>`: a set of keys enumerated in
ascending order.  It is modelled as the ascending list of its keys. -/
abbrev SortedList := List Nat

def SortedList.new : SortedList := []

/-- `SortedList::insert`: `BTreeMap::insert` adds the key if absent and
leaves the key set unchanged if present. -/
def SortedList.insert : SortedList → Nat → SortedList
  | [], k => [k]
  | x :: xs, k =>
    if k < x then k :: x :: xs
    else if k = x then x :: xs
    else x :: SortedList.insert xs k

def SortedList.len (l : SortedList) : Nat := l.length

/-- `SortedList::nth`: the n-th smallest key, if any. -/
def SortedList.nth (l : SortedList) (n : Nat) : Option Nat := l.get? n

/-- A `SortedList` produced by `new()` followed by any sequence of
`insert` calls. -/
def SortedList.build (keys : List Nat) : SortedList :=
  keys.foldl SortedList.insert SortedList.new

/-- `Node` with the `#[derive(Default)]` defaults: `None` parent, empty
children, zero score, height 0 and the all-zero block hash. -/
structure Node where
  parent_hash : Option Hash := none
  children : List Hash := []
  score : Nat := 0
  height : Nat := 0
  block_hash : Hash := 0
deriving DecidableEq

def Node.default : Node := {}

def Node.does_not_have_children (n : Node) : Bool := n.children.isEmpty

abbrev NodeMap := Hash → Option Node

/-- `HashMap::insert` on the node map. -/
def mapInsert {α : Type} (m : Hash → Option α) (k : Hash) (v : α) : Hash → Option α :=
  fun x => if x = k then some v else m x

structure Tree where
  store : Store
  nodes : NodeMap
  root : Hash
  slots_at_height : SortedList
  blocks_at_height : Nat → Option (List Hash)

/-- `Tree::new` (src/lib.rs lines 34-51).  The source builds a local `node`
with `height = 0` but then inserts `Node::default()` (an equal value, since
the default height is already 0) keyed by `root`, and never stores `root`
into any `block_hash`. -/
def Tree.new (root : Hash) (height : Nat) : Tree :=
  { store := fun _ => none
    nodes := mapInsert (fun _ => none) root Node.default
    root := root
    slots_at_height := SortedList.new
    blocks_at_height := mapInsert (fun _ => none) height [root] }

/-- `Tree::slot_at_height`. -/
def Tree.slot_at_height (t : Tree) (height : Nat) : Option Nat :=
  SortedList.nth t.slots_at_height height

/-- `Tree::find_ancestor_at_slot`. -/
def Tree.find_ancestor_at_slot (fuel : Nat) (t : Tree) (child : Hash) (slot : Nat) :
    Option (Option Hash) :=
  get_ancestor_hash_at_slot fuel slot child t.store

/-- `Tree::find_ancestor_at_height`. -/
def Tree.find_ancestor_at_height (fuel : Nat) (t : Tree) (child : Hash) (height : Nat) :
    Option (Option Hash) :=
  match t.slot_at_height height with
  | none => some none
  | some s => Tree.find_ancestor_at_slot fuel t child s

/-- `Tree::exists_above_height` (src/lib.rs lines 112-117). -/
def Tree.exists_above_height (fuel : Nat) (t : Tree) (hash : Hash) (height : Nat) :
    Option (Option Bool) :=
  match Tree.find_ancestor_at_height fuel t hash height with
  | none => none
  | some none => some none
  | some (some ancestor_at_height) =>
    match t.blocks_at_height height with
    | none => some none
    | some blocks => some (some (blocks.contains ancestor_at_height))

/-- `Tree::exists_between_heights` (src/lib.rs lines 119-127); the range is
passed as its two endpoints. -/
def Tree.exists_between_heights (fuel : Nat) (t : Tree) (hash : Hash) (lo hi : Nat) :
    Option (Option Bool) :=
  match t.blocks_at_height lo with
  | none => some none
  | some low_blocks =>
    match t.blocks_at_height hi with
    | none => some none
    | some high_blocks =>
      match Tree.find_ancestor_at_height fuel t hash lo with
      | none => none
      | some none => some none
      | some (some low_ancestor) =>
        match Tree.find_ancestor_at_height fuel t hash hi with
        | none => none
        | some none => some none
        | some (some high_ancestor) =>
          some (some (low_blocks.contains low_ancestor &&
            !(high_blocks.contains high_ancestor)))

/-- `Tree::find_prev_in_tree` (src/lib.rs lines 92-110).  The range is the
pair `(s, e)`; `Range::len` is `e - s` (saturating, as for `usize` ranges).
It does not mutate the tree, so the result is the looked-up node value
(`add_node` immediately clones the returned reference). -/
def Tree.find_prev_in_tree (t : Tree) (hash : Hash) : Nat → Nat → Nat → Option (Option Node)
  | 0, _, _ => none
  | fuel + 1, s, e =>
    if e - s = 0 ∨ e > SortedList.len t.slots_at_height then
      some none
    else
      let mid_height := (e - s) / 2
      match t.slot_at_height mid_height with
      | none => some none
      | some mid_slot =>
        match Tree.find_ancestor_at_slot (fuel + 1) t hash mid_slot with
        | none => none
        | some none => some none
        | some (some mid_ancestor) =>
          match Tree.exists_above_height (fuel + 1) t hash mid_height with
          | none => none
          | some none => some none
          | some (some above) =>
            if above then
              match Tree.exists_between_heights (fuel + 1) t hash mid_height (mid_height + 1) with
              | none => none
              | some none => some none
              | some (some between) =>
                if between then some (t.nodes mid_ancestor)
                else Tree.find_prev_in_tree t hash fuel mid_height e
            else
              Tree.find_prev_in_tree t hash fuel s mid_height

/-- The `for child_hash in prev_in_tree.children` loop of `add_node`
(src/lib.rs lines 69-84).  The first component distinguishes divergence
(`none`), an aborting `?`-miss (`some none`) and completion with the final
value of the local `node` (`some (some _)`); the second component is the
node map, including any mutations applied before an abort. -/
def add_node_children_loop (fuel : Nat) (store : Store) (hash prev_block_hash : Hash) :
    List Hash → Node → NodeMap → Option (Option Node) × NodeMap
  | [], node, nodes => (some (some node), nodes)
  | child_hash :: rest, node, nodes =>
    match find_least_common_ancestor fuel hash child_hash store with
    | none => (none, nodes)
    | some none => (some none, nodes)
    | some (some ancestor_hash) =>
      if ancestor_hash ≠ prev_block_hash then
        match nodes child_hash with
        | none => (some none, nodes)
        | some child =>
          let common_ancestor : Node :=
            { Node.default with
                block_hash := ancestor_hash
                parent_hash := some prev_block_hash }
          let child2 := { child with parent_hash := some common_ancestor.block_hash }
          let node2 := { node with parent_hash := some common_ancestor.block_hash }
          let nodes2 :=
            mapInsert (mapInsert nodes child_hash child2) common_ancestor.block_hash
              common_ancestor
          add_node_children_loop fuel store hash prev_block_hash rest node2 nodes2
      else
        add_node_children_loop fuel store hash prev_block_hash rest node nodes

/-- `Tree::add_node` (src/lib.rs lines 53-90).  The returned tree is the
post-state; on a miss or divergence it includes whatever mutations were
applied before the abort.  In the childless branch the source pushes `hash`
onto the children of a local clone of the attachment node (`prev_in_tree`)
that is then dropped, so only the insertion of the new node reaches the
map. -/
def Tree.add_node (fuel : Nat) (t : Tree) (hash block_hash : Hash) :
    Option (Option Unit) × Tree :=
  match Tree.find_prev_in_tree t hash fuel 0 (SortedList.len t.slots_at_height) with
  | none => (none, t)
  | some none => (some none, t)
  | some (some prev_in_tree) =>
    let node : Node :=
      { Node.default with
          block_hash := block_hash
          parent_hash := some prev_in_tree.block_hash }
    if prev_in_tree.does_not_have_children then
      let node2 := { node with parent_hash := some prev_in_tree.block_hash }
      (some (some ()), { t with nodes := mapInsert t.nodes hash node2 })
    else
      match add_node_children_loop fuel t.store hash prev_in_tree.block_hash
          prev_in_tree.children node t.nodes with
      | (none, nodes2) => (none, { t with nodes := nodes2 })
      | (some none, nodes2) => (some none, { t with nodes := nodes2 })
      | (some (some node2), nodes2) =>
        (some (some ()), { t with nodes := mapInsert nodes2 hash node2 })

/-- A tree reachable from `Tree::new` by a sequence of `add_node` calls
(each with its own fuel).  A diverging call never returns, so later calls
are unreachable and the state at divergence is final. -/
def applyCalls : Tree → List (Nat × Hash × Hash) → Tree
  | t, [] => t
  | t, (fuel, hash, bh) :: rest =>
    match Tree.add_node fuel t hash bh with
    | (none, t2) => t2
    | (some _, t2) => applyCalls t2 rest

/-- No node's parent link dangles: every stored parent hash is itself a key
of the node mapping. -/
def noDangling (t : Tree) : Prop :=
  ∀ k n, t.nodes k = some n → ∀ p, n.parent_hash = some p → ∃ m, t.nodes p = some m

/-- A concrete tree with a nonempty height index and an empty block store,
exercising `add_node_missing_block_is_noop`. -/
def c10Tree : Tree :=
  { store := fun _ => none
    nodes := mapInsert (fun _ => none) 3 Node.default
    root := 3
    slots_at_height := [7]
    blocks_at_height := fun _ => none }

/-- A block store with block 100 at slot 3, whose skip list points to 99
(one slot back) and 98 (two slots back). -/
def c2Store : Store := fun h =>
  if h = 100 then
    some { slot := 3
           ancestor_skip_list := fun i => if i = 0 then 99 else if i = 1 then 98 else 0 }
  else none

/-- A tree state on which `add_node 100` succeeds with a childless
attachment point: heights 0 and 1 are registered at slots 1 and 2, the
slot-1 ancestor 98 of block 100 is listed at height 0 while its slot-2
ancestor 99 is not listed at height 1, and the mapping stores an attachment
node keyed 98 with block hash 500 and no children. -/
def c2Tree : Tree :=
  { store := c2Store
    nodes := mapInsert (fun _ => none) 98
      { parent_hash := none, children := [], score := 0, height := 0, block_hash := 500 }
    root := 98
    slots_at_height := [1, 2]
    blocks_at_height := fun h =>
      if h = 0 then some [98] else if h = 1 then some [77] else none }

/-- A fully contiguous chain of blocks for slots `0..n`: the block at slot
`s` has identifier `s`, and its skip lists are correctly populated with
genesis clamping — entry `i` holds the ancestor exactly `2^i` slots back,
or genesis when that would reach before slot 0 (`Nat` subtraction clamps at
0, giving the spec's self-referential terminating genesis entries). -/
def chainStore (n : Nat) : Store := fun h =>
  if h ≤ n then some { slot := h, ancestor_skip_list := fun i => h - 2 ^ i } else none

/-- Membership in the reflexive immediate-parent chain (skip entry 0) of a
block: the genuine ancestor relation induced by a store. -/
def parentChainMem (store : Store) : Nat → Hash → Hash → Bool
  | 0, _, _ => false
  | fuel + 1, h, target =>
    if h = target then true
    else
      match store h with
      | none => false
      | some b =>
        if b.slot = 0 then false
        else parentChainMem store fuel (b.ancestor_skip_list 0) target

/-- `ceil(log2 n)` for positive `n`: the least `k` with `2^k ≥ n`, fuelled
by the 64-bit width.  Used only to state the specification's description of
the jump index. -/
def ceilLog2Aux : Nat → Nat → Nat → Nat
  | 0, _, k => k
  | fuel + 1, n, k => if n ≤ 2 ^ k then k else ceilLog2Aux fuel n (k + 1)

def ceilLog2 (n : Nat) : Nat := ceilLog2Aux 64 n 0

/-- Modelled from the spec (the wording quoted by claim C4): the ancestor
walk as the specification describes it — far jump when `delta > L-1`,
direct answer at exact powers of two, otherwise a jump via skip-entry index
`ceil(log2(delta+1))`.  Stated only for comparison with the implemented
`getAncestorLoop`. -/
def specAncestorLoop (store : Store) (slot : Nat) : Nat → Block → Option (Option Hash)
  | 0, _ => none
  | fuel + 1, block =>
    if slot ≥ block.slot then
      some none
    else
      let delta := block.slot - slot
      if delta > SKIP_LIST_LEN - 1 then
        match store (block.ancestor_skip_list (SKIP_LIST_LEN - 1)) with
        | none => some none
        | some b => specAncestorLoop store slot fuel b
      else if u64IsPowerOfTwo delta then
        some (some (block.ancestor_skip_list (u64TrailingZeros delta)))
      else
        match store (block.ancestor_skip_list (ceilLog2 (delta + 1))) with
        | none => some none
        | some b => specAncestorLoop store slot fuel b

/-- A block at slot 16 whose skip entry 4 (77) differs from what lies
behind its far-jump entry 15 (genesis). -/
def c4Block : Block :=
  { slot := 16, ancestor_skip_list := fun i => if i = 4 then 77 else if i = 15 then 0 else 99 }

def c4Store : Store := fun h =>
  if h = 0 then some { slot := 0, ancestor_skip_list := fun _ => 0 } else none

/-- A block whose remaining distance to slot 0 exceeds 16, exercising the
far-jump case of `ancestor_step_characterization`. -/
def c4WBlock : Block := { slot := 17, ancestor_skip_list := fun _ => 3 }

/-- A forked chain: genesis 0 (slot 0) and block 1 (slot 1), then branch
one 12 (slot 2) → 13 (3) → 14 (4) → 15 (5) and branch two 22 (slot 2); all
skip lists correctly populated with genesis clamping.  Block 1 is the
deepest common ancestor of 15 and 22. -/
def c5Store : Store := fun h =>
  if h = 0 then some { slot := 0, ancestor_skip_list := fun _ => 0 }
  else if h = 1 then some { slot := 1, ancestor_skip_list := fun _ => 0 }
  else if h = 12 then
    some { slot := 2, ancestor_skip_list := fun i => if i = 0 then 1 else 0 }
  else if h = 13 then
    some { slot := 3, ancestor_skip_list := fun i => if i = 0 then 12 else if i = 1 then 1 else 0 }
  else if h = 14 then
    some { slot := 4, ancestor_skip_list := fun i => if i = 0 then 13 else if i = 1 then 12 else 0 }
  else if h = 15 then
    some { slot := 5, ancestor_skip_list :=
      fun i => if i = 0 then 14 else if i = 1 then 13 else if i = 2 then 1 else 0 }
  else if h = 22 then
    some { slot := 2, ancestor_skip_list := fun i => if i = 0 then 1 else 0 }
  else none

/-- Hash of the block at slot `s` seen from branch one of `forkStore p k`:
trunk slots (`s ≤ p`) use the slot as hash, branch slots are offset by
1000. -/
def aHash (p s : Nat) : Hash := if s ≤ p then s else 1000 + s

/-- Branch-two counterpart of `aHash`, offset by 2000. -/
def bHash (p s : Nat) : Hash := if s ≤ p then s else 2000 + s

/-- A contiguous chain that forks at slot `p`: a trunk at slots `0..p`
(hash = slot) and two branches at slots `p+1..p+k` with hashes offset by
1000 and 2000.  All skip lists are correctly populated with genesis
clamping.  `p + k < 1000` keeps the three hash ranges disjoint. -/
def forkStore (p k : Nat) : Store := fun h =>
  if h ≤ p then
    some { slot := h, ancestor_skip_list := fun i => aHash p (h - 2 ^ i) }
  else if 1000 + p < h ∧ h ≤ 1000 + p + k then
    some { slot := h - 1000, ancestor_skip_list := fun i => aHash p (h - 1000 - 2 ^ i) }
  else if 2000 + p < h ∧ h ≤ 2000 + p + k then
    some { slot := h - 2000, ancestor_skip_list := fun i => bHash p (h - 2000 - 2 ^ i) }
  else none

/-- The branch-one block at slot `p + j` of `forkStore`. -/
def aBlock (p j : Nat) : Block :=
  { slot := p + j, ancestor_skip_list := fun i => aHash p (p + j - 2 ^ i) }

/-- The branch-two block at slot `p + j` of `forkStore`. -/
def bBlock (p j : Nat) : Block :=
  { slot := p + j, ancestor_skip_list := fun i => bHash p (p + j - 2 ^ i) }

theorem add_node_fuel_zero (t : Tree) (hash bh : Hash) :
    Tree.add_node 0 t hash bh = (none, t) := rfl

theorem add_node_empty_slots (fuel : Nat) (t : Tree) (hash bh : Hash)
    (h : t.slots_at_height = []) :
    Tree.add_node (fuel + 1) t hash bh = (some none, t) := by
  simp [Tree.add_node, Tree.find_prev_in_tree, h, SortedList.len]

theorem applyCalls_new (root height : Nat) (calls : List (Nat × Hash × Hash)) :
    applyCalls (Tree.new root height) calls = Tree.new root height := by
  induction calls with
  | nil => rfl
  | cons c rest ih =>
    obtain ⟨f, x, y⟩ := c
    cases f with
    | zero => simp [applyCalls, add_node_fuel_zero]
    | succ f => simp [applyCalls, add_node_empty_slots f (Tree.new root height) x y rfl, ih]

/-- Claim C1: in every tree reachable from `Tree::new` by `add_node` calls,
every further `add_node` call returns a miss (`None`) and leaves the whole
tree state — in particular the node mapping — unchanged: `slots_at_height`
is created empty and never inserted into, so `find_prev_in_tree` always
sees the empty range `0..0`. -/
theorem add_node_always_misses (root height : Nat) (calls : List (Nat × Hash × Hash))
    (fuel : Nat) (hash block_hash : Hash) :
    Tree.add_node (fuel + 1) (applyCalls (Tree.new root height) calls) hash block_hash
      = (some none, applyCalls (Tree.new root height) calls) := by
  rw [applyCalls_new]
  exact add_node_empty_slots _ _ _ _ rfl

/-- Claim C7: in every tree state reachable from `Tree::new` by any
sequence of `add_node` calls, every non-root node in the mapping has a
parent hash that resolves to a key of the mapping, and the root node has no
parent hash. -/
theorem reachable_parent_links_resolve (root height : Nat)
    (calls : List (Nat × Hash × Hash)) (k : Hash) (node : Node)
    (h : (applyCalls (Tree.new root height) calls).nodes k = some node) :
    (k ≠ root → ∃ p pnode, node.parent_hash = some p ∧
      (applyCalls (Tree.new root height) calls).nodes p = some pnode) ∧
    (k = root → node.parent_hash = none) := by
  rw [applyCalls_new] at h ⊢
  by_cases hk : k = root
  · subst hk
    have h2 : Node.default = node := by simpa [Tree.new, mapInsert] using h
    subst h2
    exact ⟨fun hne => absurd rfl hne, fun _ => rfl⟩
  · simp [Tree.new, mapInsert, hk] at h

theorem reachable_parent_links_resolve_witness : Node.default.parent_hash = none :=
  (reachable_parent_links_resolve 5 0 [] 5 Node.default rfl).2 rfl

theorem find_prev_missing_block (t : Tree) (hash : Hash) (h : t.store hash = none)
    (fuel s e : Nat) :
    Tree.find_prev_in_tree t hash (fuel + 1) s e = some none := by
  simp only [Tree.find_prev_in_tree]
  split
  · rfl
  · cases hnth : Tree.slot_at_height t ((e - s) / 2) with
    | none => simp [hnth]
    | some v => simp [hnth, Tree.find_ancestor_at_slot, get_ancestor_hash_at_slot, h]

/-- Claim C10: calling `add_node` with an identifier absent from the block
store returns a miss and leaves the tree unchanged; in particular it inserts
no node at all, so it cannot introduce a dangling parent link. -/
theorem add_node_missing_block_is_noop (fuel : Nat) (t : Tree) (hash block_hash : Hash)
    (h : t.store hash = none) :
    Tree.add_node (fuel + 1) t hash block_hash = (some none, t) ∧
    (noDangling t → noDangling (Tree.add_node (fuel + 1) t hash block_hash).2) := by
  have hf := find_prev_missing_block t hash h (fuel) 0 (SortedList.len t.slots_at_height)
  refine ⟨by simp [Tree.add_node, hf], fun hnd => ?_⟩
  simpa [Tree.add_node, hf] using hnd

theorem add_node_missing_block_is_noop_witness :
    Tree.add_node 4 c10Tree 99 1 = (some none, c10Tree) :=
  (add_node_missing_block_is_noop 3 c10Tree 99 1 rfl).1

/-- Claim C2 (code bug): this `add_node(100, 42)` call succeeds and its
attachment point is the childless node keyed 98 (block hash 500).  The new
node keyed 100 is inserted with `parent_hash = Some(500)` as the claim
states, but 100 is not added to the children of the stored attachment node:
the push lands on a local clone of it that is then dropped, so the stored
node still has no children. -/
theorem add_node_succeeds_but_child_link_lost :
    (Tree.add_node 10 c2Tree 100 42).1 = some (some ()) ∧
    (Tree.add_node 10 c2Tree 100 42).2.nodes 100 =
      some { parent_hash := some 500, children := [], score := 0, height := 0, block_hash := 42 } ∧
    (Tree.add_node 10 c2Tree 100 42).2.nodes 98 =
      some { parent_hash := none, children := [], score := 0, height := 0, block_hash := 500 } :=
  ⟨rfl, rfl, rfl⟩

/-- Claim C6 (counterexample): with root identifier 1, the single node that
`Tree::new` stores under the root key has block hash 0 (the `Hash256`
default), not the root identifier 1. -/
theorem tree_new_root_block_hash_not_root :
    ((Tree.new 1 5).nodes 1).map Node.block_hash = some 0 ∧ (0 : Hash) ≠ 1 :=
  ⟨rfl, by decide⟩

/-- Claim C6 (amended): `Tree::new(root, height)` stores exactly one node,
keyed by `root`, equal to `Node::default()` — height 0, no parent, and
block hash the default all-zero identifier rather than `root` — and its
height index maps exactly the ordinal `height` to the singleton `[root]`,
with `slots_at_height` empty. -/
theorem tree_new_characterization (root height : Nat) :
    (Tree.new root height).nodes root = some Node.default ∧
    Node.default.parent_hash = none ∧
    Node.default.height = 0 ∧
    Node.default.block_hash = 0 ∧
    (∀ k, k ≠ root → (Tree.new root height).nodes k = none) ∧
    (Tree.new root height).blocks_at_height height = some [root] ∧
    (∀ h2, h2 ≠ height → (Tree.new root height).blocks_at_height h2 = none) ∧
    (Tree.new root height).slots_at_height = SortedList.new := by
  refine ⟨by simp [Tree.new, mapInsert], rfl, rfl, rfl, ?_,
    by simp [Tree.new, mapInsert], ?_, rfl⟩
  · intro k hk; simp [Tree.new, mapInsert, hk]
  · intro h2 hh; simp [Tree.new, mapInsert, hh]

theorem tree_new_characterization_witness : (Tree.new 1 5).nodes 7 = none :=
  (tree_new_characterization 1 5).2.2.2.2.1 7 (by decide)

theorem SortedList.mem_insert {l : SortedList} {k y : Nat}
    (h : y ∈ SortedList.insert l k) : y ∈ l ∨ y = k := by
  induction l with
  | nil => simpa [SortedList.insert] using h
  | cons x xs ih =>
    simp only [SortedList.insert] at h
    split at h
    · rcases List.mem_cons.mp h with rfl | h2
      · exact Or.inr rfl
      · exact Or.inl h2
    · split at h
      · exact Or.inl h
      · rcases List.mem_cons.mp h with rfl | h2
        · exact Or.inl (List.mem_cons_self _ _)
        · rcases ih h2 with h3 | rfl
          · exact Or.inl (List.mem_cons_of_mem _ h3)
          · exact Or.inr rfl

theorem SortedList.insert_sorted {l : SortedList} (h : List.Sorted (· < ·) l) (k : Nat) :
    List.Sorted (· < ·) (SortedList.insert l k) := by
  induction l with
  | nil => simp [SortedList.insert]
  | cons x xs ih =>
    rw [List.sorted_cons] at h
    obtain ⟨hx, hxs⟩ := h
    simp only [SortedList.insert]
    split
    · rename_i hkx
      rw [List.sorted_cons]
      refine ⟨?_, List.sorted_cons.mpr ⟨hx, hxs⟩⟩
      intro b hb
      rcases List.mem_cons.mp hb with rfl | hb2
      · exact hkx
      · exact lt_trans hkx (hx b hb2)
    · split
      · exact List.sorted_cons.mpr ⟨hx, hxs⟩
      · rename_i hkx hke
        rw [List.sorted_cons]
        refine ⟨?_, ih hxs⟩
        intro b hb
        rcases SortedList.mem_insert hb with hb2 | rfl
        · exact hx b hb2
        · omega

theorem SortedList.build_sorted (keys : List Nat) :
    List.Sorted (· < ·) (SortedList.build keys) := by
  suffices h : ∀ l, List.Sorted (· < ·) l →
      List.Sorted (· < ·) (keys.foldl SortedList.insert l) from h [] List.sorted_nil
  induction keys with
  | nil => exact fun l hl => hl
  | cons k ks ih => exact fun l hl => ih _ (SortedList.insert_sorted hl k)

/-- Claim C9: for every `SortedList` built from `new()` by any sequence of
`insert` calls, `nth` is strictly increasing below `length()` (so the keys
are ascending and duplicate-free), and `nth i` is a miss for
`i ≥ length()`. -/
theorem sortedList_nth_increasing_and_oob (keys : List Nat) (i j a b : Nat) :
    (i < j → SortedList.nth (SortedList.build keys) i = some a →
      SortedList.nth (SortedList.build keys) j = some b → a < b) ∧
    (SortedList.len (SortedList.build keys) ≤ i →
      SortedList.nth (SortedList.build keys) i = none) := by
  constructor
  · intro hij ha hb
    obtain ⟨hi, hga⟩ := List.get?_eq_some.mp ha
    obtain ⟨hj, hgb⟩ := List.get?_eq_some.mp hb
    rw [← hga, ← hgb]
    exact (SortedList.build_sorted keys).rel_get_of_lt hij
  · exact fun h => List.get?_eq_none.mpr h

theorem sortedList_nth_increasing_and_oob_witness :
    (2 : Nat) < 5 ∧ SortedList.nth (SortedList.build [5, 2, 9, 2]) 3 = none :=
  ⟨(sortedList_nth_increasing_and_oob [5, 2, 9, 2] 0 1 2 5).1 (by decide) rfl rfl,
    (sortedList_nth_increasing_and_oob [5, 2, 9, 2] 3 0 0 0).2 (by decide)⟩

theorem lcaLoop_symm (store : Store) : ∀ fuel a b,
    lcaLoop store fuel a b = lcaLoop store fuel b a := by
  intro fuel
  induction fuel with
  | zero => intro a b; rfl
  | succ fuel ih =>
    intro a b
    simp only [lcaLoop]
    by_cases h : a.ancestor_skip_list 0 = b.ancestor_skip_list 0
    · rw [if_pos h, if_pos h.symm, h]
    · rw [if_neg h,
        if_neg (fun h2 : b.ancestor_skip_list 0 = a.ancestor_skip_list 0 => h h2.symm)]
      by_cases hz : a.slot = 0 ∨ b.slot = 0
      · rw [if_pos hz, if_pos (Or.symm hz)]
      · rw [if_neg hz, if_neg (fun h2 => hz (Or.symm h2))]
        cases ha : store (a.ancestor_skip_list 0) <;>
          cases hb : store (b.ancestor_skip_list 0) <;> try rfl
        exact ih _ _

/-- Claim C8: `find_least_common_ancestor(a, b, store)` equals
`find_least_common_ancestor(b, a, store)` for every fuel budget, every pair
of identifiers and every store (divergence included: both orders run out of
fuel together). -/
theorem lca_symmetric (fuel : Nat) (a b : Hash) (store : Store) :
    find_least_common_ancestor fuel a b store =
      find_least_common_ancestor fuel b a store := by
  simp only [find_least_common_ancestor]
  cases ha : store a <;> cases hb : store b <;> try rfl
  rename_i aa bb
  dsimp only
  rcases Nat.lt_trichotomy aa.slot bb.slot with hlt | heq | hgt
  · rw [if_neg (by omega : ¬ aa.slot > bb.slot), if_pos (by omega : bb.slot > aa.slot),
      if_pos (by omega : bb.slot > aa.slot)]
    cases hg : get_ancestor_hash_at_slot fuel aa.slot b store with
    | none => rfl
    | some o =>
      cases o with
      | none => rfl
      | some h =>
        dsimp only
        cases store h with
        | none => rfl
        | some x => exact lcaLoop_symm store fuel aa x
  · rw [if_neg (by omega : ¬ aa.slot > bb.slot), if_neg (by omega : ¬ bb.slot > aa.slot),
      if_neg (by omega : ¬ bb.slot > aa.slot), if_neg (by omega : ¬ aa.slot > bb.slot)]
    exact lcaLoop_symm store fuel aa bb
  · rw [if_pos (by omega : aa.slot > bb.slot), if_neg (by omega : ¬ bb.slot > aa.slot),
      if_pos (by omega : aa.slot > bb.slot)]
    cases hg : get_ancestor_hash_at_slot fuel bb.slot a store with
    | none => rfl
    | some o =>
      cases o with
      | none => rfl
      | some h =>
        dsimp only
        cases store h with
        | none => rfl
        | some x => exact lcaLoop_symm store fuel x bb

/-- Claim C3 (counterexample): in the contiguous 6-block chain, block 2 is
an ancestor of block 5 (slot 2 < 5, on block 5's parent chain, present in
the store), yet the ancestor query for slot 2 starting from block 5 returns
a miss: the non-power-of-two distance 3 makes the walk jump via skip entry
`next_power_of_two(3) - 1 = 3` — eight slots back, past the target — after
which the loop terminates with `None`. -/
theorem ancestor_query_misses_existing_ancestor :
    parentChainMem (chainStore 5) 10 5 2 = true ∧
    chainStore 5 2 = some { slot := 2, ancestor_skip_list := fun i => 2 - 2 ^ i } ∧
    get_ancestor_hash_at_slot 10 2 5 (chainStore 5) = some none :=
  ⟨rfl, rfl, rfl⟩

theorem u64TrailingZeros_pow2_le16 (d : Nat) (hle : d ≤ 16)
    (hpow : u64IsPowerOfTwo d = true) : 2 ^ u64TrailingZeros d = d := by
  interval_cases d <;> revert hpow <;> decide

/-- One loop iteration at a power-of-two remaining distance of at most 16
returns the corresponding skip entry directly. -/
theorem getAncestorLoop_pow2_step (store : Store) (slot fuel : Nat) (block : Block)
    (hlt : slot < block.slot) (hle : block.slot - slot ≤ 16)
    (hpow : u64IsPowerOfTwo (block.slot - slot) = true) :
    getAncestorLoop store slot (fuel + 1) block
      = some (some (block.ancestor_skip_list (u64TrailingZeros (block.slot - slot)))) := by
  simp only [getAncestorLoop, SKIP_LIST_LEN]
  rw [if_neg (by omega : ¬ slot ≥ block.slot), if_neg (by omega : ¬ block.slot - slot > 16),
    if_pos hpow]

/-- Claim C3 (amended): on a contiguous chain with correctly populated skip
lists, the ancestor query from the block at slot `s + 2^k` for target slot
`s` returns the ancestor at slot `s` whenever the distance `2^k` is a power
of two of at most 16 (`k ≤ 4`).  For other distances the query can miss
even though the ancestor exists (see the counterexample). -/
theorem ancestor_query_correct_at_pow2_delta (fuel n s k : Nat)
    (hk : k ≤ 4) (hn : s + 2 ^ k ≤ n) :
    get_ancestor_hash_at_slot (fuel + 1) s (s + 2 ^ k) (chainStore n) = some (some s) := by
  have hpos : 0 < 2 ^ k := pow_pos (by norm_num) k
  have hle16 : 2 ^ k ≤ 16 := by
    calc 2 ^ k ≤ 2 ^ 4 := Nat.pow_le_pow_right (by norm_num) hk
    _ = 16 := by norm_num
  have hpow : u64IsPowerOfTwo (2 ^ k) = true := by interval_cases k <;> decide
  have hstore : chainStore n (s + 2 ^ k)
      = some { slot := s + 2 ^ k, ancestor_skip_list := fun i => s + 2 ^ k - 2 ^ i } := by
    simp [chainStore, hn]
  simp only [get_ancestor_hash_at_slot]
  rw [hstore]
  dsimp only
  have hd : ({ slot := s + 2 ^ k, ancestor_skip_list := fun i => s + 2 ^ k - 2 ^ i } : Block).slot
      - s = 2 ^ k := by simp
  rw [getAncestorLoop_pow2_step _ _ fuel _ (by simp) (by rw [hd]; exact hle16)
    (by rw [hd]; exact hpow)]
  rw [hd]
  simp only [u64TrailingZeros_pow2_le16 (2 ^ k) hle16 hpow]
  simp

theorem ancestor_query_correct_at_pow2_delta_witness :
    get_ancestor_hash_at_slot 1 3 7 (chainStore 20) = some (some 3) :=
  ancestor_query_correct_at_pow2_delta 0 20 3 2 (by decide) (by decide)

/-- Claim C4 (counterexample): at remaining distance `delta = 16 = L`, the
claim mandates a far jump through skip entry `L-1 = 15` (its condition is
`delta > L-1`), but the implemented loop returns skip entry `log2(16) = 4`
directly, because the code's far-jump condition is `delta > L`.  On this
block the two behaviours give different results. -/
theorem ancestor_step_differs_from_spec_at_16 :
    getAncestorLoop c4Store 0 5 c4Block = some (some 77) ∧
    specAncestorLoop c4Store 0 5 c4Block = some none :=
  ⟨rfl, rfl⟩

/-- Claim C4 (amended): one iteration of the implemented ancestor-walk loop
with remaining distance `delta = block.slot - slot > 0` behaves as: if
`delta > L` (not `L-1`; `L = 16`) the cursor moves to the block referenced
by skip entry `L-1 = 15`; else if `delta` is an exact power of two the loop
returns skip entry `log2(delta)` (the index `k` with `2^k = delta`);
otherwise the cursor moves to skip entry `next_power_of_two(delta) - 1` —
that numeric value minus one, not the exponent `ceil(log2(delta+1))`. -/
theorem ancestor_step_characterization (fuel : Nat) (store : Store) (slot : Nat)
    (block : Block) (hlt : slot < block.slot) :
    (block.slot - slot > 16 →
      getAncestorLoop store slot (fuel + 1) block =
        match store (block.ancestor_skip_list 15) with
        | none => some none
        | some b => getAncestorLoop store slot fuel b) ∧
    (block.slot - slot ≤ 16 → u64IsPowerOfTwo (block.slot - slot) = true →
      2 ^ u64TrailingZeros (block.slot - slot) = block.slot - slot ∧
      getAncestorLoop store slot (fuel + 1) block =
        some (some (block.ancestor_skip_list (u64TrailingZeros (block.slot - slot))))) ∧
    (u64IsPowerOfTwo (block.slot - slot) = false → block.slot - slot ≤ 16 →
      getAncestorLoop store slot (fuel + 1) block =
        match store (block.ancestor_skip_list (u64NextPowerOfTwo (block.slot - slot) - 1)) with
        | none => some none
        | some b => getAncestorLoop store slot fuel b) := by
  refine ⟨?_, ?_, ?_⟩
  · intro hgt
    simp only [getAncestorLoop, SKIP_LIST_LEN]
    rw [if_neg (by omega : ¬ slot ≥ block.slot), if_pos (by omega : block.slot - slot > 16)]
  · intro hle hpow
    exact ⟨u64TrailingZeros_pow2_le16 _ hle hpow,
      getAncestorLoop_pow2_step store slot fuel block hlt hle hpow⟩
  · intro hpow hle
    simp only [getAncestorLoop, SKIP_LIST_LEN]
    rw [if_neg (by omega : ¬ slot ≥ block.slot), if_neg (by omega : ¬ block.slot - slot > 16),
      if_neg (by simp [hpow] : ¬ u64IsPowerOfTwo (block.slot - slot) = true)]

theorem ancestor_step_characterization_witness :
    getAncestorLoop (fun _ => none) 0 1 c4WBlock = some none := by
  have h := (ancestor_step_characterization 0 (fun _ => none) 0 c4WBlock (by decide)).1
    (by decide)
  simpa using h

/-- Claim C5 (counterexample): block 1 is a common ancestor of blocks 15
and 22 — their parent chains meet at 1, and only genesis lies below it —
yet `find_least_common_ancestor(15, 22)` returns a miss: aligning block 15
(slot 5) down to slot 2 issues an ancestor query at the non-power-of-two
distance 3, which misses. -/
theorem lca_misses_despite_common_ancestor :
    parentChainMem c5Store 10 15 1 = true ∧
    parentChainMem c5Store 10 22 1 = true ∧
    find_least_common_ancestor 10 15 22 c5Store = some none :=
  ⟨rfl, rfl, rfl⟩

theorem forkStore_aBlock (p k j : Nat) (_hpk : p + k < 1000) (h1 : 1 ≤ j) (hk : j ≤ k) :
    forkStore p k (1000 + (p + j)) = some (aBlock p j) := by
  have hcond : ¬ (1000 + (p + j) ≤ p) := by omega
  have hcond2 : 1000 + p < 1000 + (p + j) ∧ 1000 + (p + j) ≤ 1000 + p + k := by omega
  simp only [forkStore, if_neg hcond, if_pos hcond2, Nat.add_sub_cancel_left, aBlock]

theorem forkStore_bBlock (p k j : Nat) (hpk : p + k < 1000) (h1 : 1 ≤ j) (hk : j ≤ k) :
    forkStore p k (2000 + (p + j)) = some (bBlock p j) := by
  have hcond : ¬ (2000 + (p + j) ≤ p) := by omega
  have hcond2 : ¬ (1000 + p < 2000 + (p + j) ∧ 2000 + (p + j) ≤ 1000 + p + k) := by omega
  have hcond3 : 2000 + p < 2000 + (p + j) ∧ 2000 + (p + j) ≤ 2000 + p + k := by omega
  simp only [forkStore, if_neg hcond, if_neg hcond2, if_pos hcond3,
    Nat.add_sub_cancel_left, bBlock]

theorem lcaLoop_fork (p k : Nat) (hpk : p + k < 1000) :
    ∀ j fuel, 1 ≤ j → j ≤ k →
      lcaLoop (forkStore p k) (fuel + j) (aBlock p j) (bBlock p j) = some (some p) := by
  intro j
  induction j with
  | zero => intro fuel h1 _; omega
  | succ m ih =>
    intro fuel h1 hk
    rw [Nat.add_succ]
    cases Nat.eq_zero_or_pos m with
    | inl hm =>
      subst hm
      have ha : (aBlock p 1).ancestor_skip_list 0 = p := by
        simp [aBlock, aHash]
      have hb : (bBlock p 1).ancestor_skip_list 0 = p := by
        simp [bBlock, bHash]
      simp [lcaLoop, ha, hb]
    | inr hm =>
      have ha0 : (aBlock p (m + 1)).ancestor_skip_list 0 = 1000 + (p + m) := by
        simp only [aBlock, aHash, pow_zero]
        rw [show p + (m + 1) - 1 = p + m from by omega, if_neg (by omega)]
      have hb0 : (bBlock p (m + 1)).ancestor_skip_list 0 = 2000 + (p + m) := by
        simp only [bBlock, bHash, pow_zero]
        rw [show p + (m + 1) - 1 = p + m from by omega, if_neg (by omega)]
      have hz : ¬ ((aBlock p (m + 1)).slot = 0 ∨ (bBlock p (m + 1)).slot = 0) := by
        simp [aBlock, bBlock]
      simp only [lcaLoop, ha0, hb0]
      rw [if_neg (by omega : ¬ (1000 + (p + m) = 2000 + (p + m))), if_neg hz,
        forkStore_aBlock p k m hpk hm (by omega), forkStore_bBlock p k m hpk hm (by omega)]
      exact ih fuel hm (by omega)

/-- Claim C5 (amended): when the two blocks already sit at equal slots — so
the broken slot-alignment step is not needed — the LCA walk is correct: on
a forked contiguous chain with trunk up to slot `p` and two equally long
branches, `find_least_common_ancestor` of the two tips returns the fork
block at slot `p`, the deepest common ancestor.  With unequal slots the
call can miss even though a common ancestor exists (see the
counterexample). -/
theorem lca_equal_slot_fork_correct (fuel p k : Nat) (hpk : p + (k + 1) < 1000) :
    find_least_common_ancestor (fuel + (k + 1)) (1000 + (p + (k + 1)))
      (2000 + (p + (k + 1))) (forkStore p (k + 1)) = some (some p) := by
  have ha := forkStore_aBlock p (k + 1) (k + 1) hpk (by omega) (by omega)
  have hb := forkStore_bBlock p (k + 1) (k + 1) hpk (by omega) (by omega)
  simp only [find_least_common_ancestor]
  rw [ha, hb]
  dsimp only
  rw [if_neg (by simp [aBlock, bBlock]), if_neg (by simp [aBlock, bBlock])]
  exact lcaLoop_fork p (k + 1) hpk (k + 1) fuel (by omega) (by omega)

theorem lca_equal_slot_fork_correct_witness :
    find_least_common_ancestor 1 1003 2003 (forkStore 2 1) = some (some 2) :=
  lca_equal_slot_fork_correct 0 2 0 (by decide)

end ReducedTree
